import Mathlib

/-!
Shallow embedding of the scheme-binding and lexing core of the wirefilter
engine (src/engine/src/scheme.rs): the append-only field registry, the
context-sensitive dotted-field lexer, and the ParseError position mapping.

Strings are modelled as lists of characters.  A Rust sub-slice of an input
buffer is identified by its start offset (the pointer difference) and its
length within the original list, so the lexer passes around the original
list together with a current offset.  A Rust panic is modelled as the none
case of an Option result; a shared reference to a Scheme is modelled as a
numeric identity (the address) interpreted by an environment of schemes,
so that pointer equality becomes equality of identities.
-/

namespace WFilter

/-- Strings are modelled as lists of characters. -/
abbrev Str := List Char

/-- Modelled from the spec: the opaque, copyable, comparable type tag of the
external types module (not under src/), with the variants the tests use. -/
inductive Typ where
  | Bytes
  | Unsigned
  | Bool
deriving DecidableEq

/-- Unit error type of a failed registry lookup (struct UnknownFieldError). -/
inductive UnknownFieldError where
  | unknown
deriving DecidableEq

/-- Modelled from the spec: the error-kind vocabulary of the external lex
module (not under src/), per Sect 6 of the spec: an expected-name kind with a
human label, a literal mismatch, the unknown-field kind carrying the lookup
error, and expected end of input. -/
inductive LexErrorKind where
  | ExpectedName (desc : Str)
  | ExpectedLiteral (lit : Str)
  | UnknownField (err : UnknownFieldError)
  | EOF
deriving DecidableEq

/-- A raw lexing failure: the error kind plus the offending span, given by its
start offset and length within the original input. -/
abbrev LexError := LexErrorKind × Nat × Nat

/-- Modelled from the spec: the external scanning primitive take_while of the
lex module — consume a maximal run of characters satisfying the predicate;
consuming none is a failure with an expected-name kind whose offending span is
the unconsumed remainder.  s is the original character list, pos the current
offset; success carries the consumed run and the new offset. -/
def take_while (s : Str) (pos : Nat) (desc : Str) (pred : Char → Bool) :
    Except LexError (Str × Nat) :=
  let taken := (s.drop pos).takeWhile pred
  if taken.isEmpty then .error (.ExpectedName desc, pos, s.length - pos)
  else .ok (taken, pos + taken.length)

/-- Modelled from the spec: the external scanning primitive expect of the lex
module — consume an exact literal, or fail with a literal-mismatch kind whose
offending span is the remainder. -/
def expect (s : Str) (pos : Nat) (lit : Str) : Except LexError Nat :=
  if (s.drop pos).take lit.length = lit then .ok (pos + lit.length)
  else .error (.ExpectedLiteral lit, pos, s.length - pos)

/-- Modelled from the spec: the external primitive span of the lex module —
the text consumed between the initial offset and the current offset. -/
def span (s : Str) (initialPos pos : Nat) : Str :=
  (s.drop initialPos).take (pos - initialPos)

/-- The field registry of struct Scheme: an insertion-ordered association list
from field name to type, modelling the IndexMap. -/
structure Scheme where
  fields : List (Str × Typ)
deriving DecidableEq

/-- A field reference (struct Field): the identity of the owning scheme — the
model of the borrowed scheme pointer — plus the slot index into its registry. -/
structure Field where
  sid : Nat
  index : Nat
deriving DecidableEq

/-- First index whose key equals the name: the index part of
IndexMap::get_full. -/
def findKeyIdx (name : Str) : List (Str × Typ) → Option Nat
  | [] => none
  | p :: rest => if p.1 == name then some 0 else (findKeyIdx name rest).map (· + 1)

/-- Scheme::get_field_index: look the name up verbatim as a single registry
key; a bound Field on a hit, an unknown-field error on a miss.  sid is the
identity of the scheme (the self reference stored into the Field). -/
def Scheme.get_field_index (S : Scheme) (sid : Nat) (name : Str) :
    Except UnknownFieldError Field :=
  match findKeyIdx name S.fields with
  | some i => .ok ⟨sid, i⟩
  | none => .error .unknown

/-- Scheme::add_field: a vacant name is appended at the next slot index; an
occupied name panics, modelled as none (the original scheme value is untouched
in that case, the registry keeps its entries as they were). -/
def Scheme.add_field (S : Scheme) (name : Str) (ty : Typ) : Option Scheme :=
  if S.fields.any (fun p => p.1 == name) then none
  else some ⟨S.fields ++ [(name, ty)]⟩

/-- Scheme::get_field_count. -/
def Scheme.get_field_count (S : Scheme) : Nat := S.fields.length

/-- IndexMap::insert semantics (external indexmap crate), as performed for each
pair by IndexMap::from_iter: an existing key keeps its slot and gets the new
value; a new key is appended at the end. -/
def indexMapInsert (fields : List (Str × Typ)) (name : Str) (ty : Typ) :
    List (Str × Typ) :=
  if fields.any (fun p => p.1 == name)
  then fields.map (fun p => if p.1 == name then (p.1, ty) else p)
  else fields ++ [(name, ty)]

/-- The FromIterator implementation for Scheme: builds the registry with
IndexMap::from_iter, which inserts the pairs in order. -/
def Scheme.fromIter (l : List (Str × Typ)) : Scheme :=
  ⟨l.foldl (fun fs p => indexMapInsert fs p.1 p.2) []⟩

/-- Field::name: the key at the field's slot of the owning scheme's registry.
The Rust unwrap of the slot lookup is modelled by Option (none = panic); the
environment env interprets the scheme identity stored in the field. -/
def Field.name (env : Nat → Scheme) (f : Field) : Option Str :=
  ((env f.sid).fields[f.index]?).map (fun p => p.1)

/-- The GetType implementation for Field: the type at the field's slot (the
unwrap again modelled by Option). -/
def Field.get_type (env : Nat → Scheme) (f : Field) : Option Typ :=
  ((env f.sid).fields[f.index]?).map (fun p => p.2)

/-- The derived PartialEq of Field: the two scheme references are compared
with the scheme's own PartialEq, which is ptr::eq — equality of identities —
and the slot indices are compared. -/
def fieldEq (f g : Field) : Bool :=
  f.sid == g.sid && f.index == g.index

/-- The Hash implementation of Field feeds only the field's name to the
hasher; the hash input is modelled as the name itself, so two fields hash
identically exactly when their names agree. -/
def Field.hashKey (env : Nat → Scheme) (f : Field) : Option Str :=
  Field.name env f

/-- The description label the field lexer passes to take_while. -/
def identDesc : Str := "identifier character".toList

/-- is_ascii_alphanumeric or underscore: the identifier characters. -/
def isIdentChar (c : Char) : Bool :=
  c.isAlphanum || c == '_'

/-- Fuel-indexed unfolding of the loop of the LexWith implementation for
Field: consume an identifier run, and as long as a literal dot follows,
consume the dot and loop for another run.  The fuel only bounds the number of
iterations; lexLoop below supplies more fuel than any input can use, and
lexLoopF_fuel_irrel shows the result is then independent of the exact
amount. -/
def lexLoopF (s : Str) : Nat → Nat → Except LexError Nat
  | 0, pos => .ok pos
  | fuel + 1, pos =>
    match take_while s pos identDesc isIdentChar with
    | .error e => .error e
    | .ok (_, pos1) =>
      match expect s pos1 ['.'] with
      | .ok pos2 => lexLoopF s fuel pos2
      | .error _ => .ok pos1

/-- The loop of Field lexing, with enough fuel for any input: every iteration
consumes at least two characters, so length + 1 iterations never run out. -/
def lexLoop (s : Str) (pos : Nat) : Except LexError Nat :=
  lexLoopF s (s.length + 1) pos

/-- The LexWith implementation for Field (Field::lex_with): run the dotted
loop from the initial offset, take the consumed span as the one candidate
name, and look it up; a miss fails with the unknown-field kind whose offending
span is exactly the candidate text. -/
def Field.lex_with (s : Str) (pos : Nat) (sid : Nat) (S : Scheme) :
    Except LexError (Field × Nat) :=
  match lexLoop s pos with
  | .error e => .error e
  | .ok pos1 =>
    match S.get_field_index sid (span s pos pos1) with
    | .ok field => .ok (field, pos1)
    | .error err => .error (.UnknownField err, pos, pos1 - pos)

/-- The scheme built by the test_field test. -/
def testScheme : Scheme :=
  Scheme.fromIter
    [("x".toList, Typ.Bytes), ("x.y.z0".toList, Typ.Unsigned),
     ("is_TCP".toList, Typ.Bool)]

/-- Indices of every newline character of a list, in order: the offsets that
match_indices of a newline yields in ParseError::new. -/
def newlinePositions : Str → List Nat
  | [] => []
  | c :: rest =>
    (if c == '\n' then [0] else []) ++ (newlinePositions rest).map (· + 1)

/-- Index of the first occurrence of a character (str::find). -/
def findChar (c : Char) : Str → Option Nat
  | [] => none
  | a :: rest => if a == c then some 0 else (findChar c rest).map (· + 1)

/-- The scan over match_indices in ParseError::new: the number of newlines in
the text before the span, paired with the offset just after the last of them —
or the default pair of zeroes when there is no newline at all. -/
def lineNumberAndStart (l : Str) : Nat × Nat :=
  match (newlinePositions l).getLast? with
  | some q => ((newlinePositions l).length, q + 1)
  | none => (0, 0)

/-- struct ParseError: the error kind, the stored single line, the 0-based
line number, the span start relative to that line, and the clamped span
length. -/
structure ParseError where
  kind : LexErrorKind
  input : Str
  line_number : Nat
  span_start : Nat
  span_len : Nat
deriving DecidableEq

/-- ParseError::new.  The offending span is the sub-slice of the original
input that starts at offset spanStart and has length spanLen (the Rust
pointer difference is exactly that start offset).  Scan the text before the
span for newlines to get the line number and the line start, re-express the
span start relative to the line start, and truncate the stored line just
before the next newline when there is one, clamping the span length so it
cannot run past the line end. -/
def ParseError.new (input : Str) (kind : LexErrorKind) (spanStart spanLen : Nat) :
    ParseError :=
  let ls := lineNumberAndStart (input.take spanStart)
  let input1 := input.drop ls.2
  let spanStart1 := spanStart - ls.2
  match findChar '\n' input1 with
  | some lineEnd =>
    ⟨kind, input1.take lineEnd, ls.1, spanStart1, min spanLen (lineEnd - spanStart1)⟩
  | none => ⟨kind, input1, ls.1, spanStart1, spanLen⟩

/-- Modelled from the spec: the Filter AST node of the external ast module
(not under src/); the grammar itself is out of scope and is modelled as a
single field reference. -/
structure Filter where
  field : Field
deriving DecidableEq

/-- Modelled from the spec: the LexWith implementation for Filter of the
external ast module.  Per the lexing-context contract of Sect 6 it lexes a
Field wherever the grammar expects a field reference and propagates any
nested field-lex failure unchanged (kind and span). -/
def Filter.lex_with (s : Str) (pos : Nat) (sid : Nat) (S : Scheme) :
    Except LexError (Filter × Nat) :=
  match Field.lex_with s pos sid S with
  | .ok (f, pos1) => .ok (⟨f⟩, pos1)
  | .error e => .error e

/-- Modelled from the spec: the external primitive complete of the lex
module — require the whole input to have been consumed; trailing characters
are a failure with an expected-end-of-input kind at the first unconsumed
position. -/
def complete (s : Str) (r : Except LexError (Filter × Nat)) :
    Except LexError Filter :=
  match r with
  | .error e => .error e
  | .ok (v, pos) =>
    if pos = s.length then .ok v else .error (.EOF, pos, s.length - pos)

/-- The number of leading whitespace characters: what str::trim removes in
front, and hence the offset of the trimmed sub-slice within the original. -/
def trimStartLen (s : Str) : Nat := (s.takeWhile Char.isWhitespace).length

/-- str::trim: the sub-slice without leading and trailing whitespace; it
starts at offset trimStartLen s of the original input. -/
def trim (s : Str) : Str :=
  ((s.drop (trimStartLen s)).reverse.dropWhile Char.isWhitespace).reverse

/-- Scheme::parse: trim the input, lex a Filter against the trimmed text with
self as context requiring full consumption, and on failure build the
ParseError against the original untrimmed input — an offset st into the
trimmed text lies at absolute offset trimStartLen input + st of the original
(the Rust pointer difference of the two slices). -/
def Scheme.parse (S : Scheme) (sid : Nat) (input : Str) : Except ParseError Filter :=
  match complete (trim input) (Filter.lex_with (trim input) 0 sid S) with
  | .ok f => .ok f
  | .error (kind, st, len) =>
    .error (ParseError.new input kind (trimStartLen input + st) len)

/-- A successful take_while consumed at least one character and stayed inside
the input. -/
theorem take_while_ok {s : Str} {pos : Nat} {desc : Str} {pred : Char → Bool}
    {tk : Str} {pos1 : Nat}
    (h : take_while s pos desc pred = .ok (tk, pos1)) :
    pos < pos1 ∧ pos1 ≤ s.length := by
  simp only [take_while] at h
  split at h
  · cases h
  · next hne =>
    cases h
    have h1 : ¬((s.drop pos).takeWhile pred = []) := by
      simpa [List.isEmpty_iff] using hne
    have h2 : ((s.drop pos).takeWhile pred).length ≤ (s.drop pos).length :=
      (List.takeWhile_sublist pred).length_le
    have h3 : 0 < ((s.drop pos).takeWhile pred).length :=
      List.length_pos.mpr h1
    have h4 : (s.drop pos).length = s.length - pos := List.length_drop pos s
    omega

/-- A successful expect advanced by the literal's length and stayed inside the
input. -/
theorem expect_ok {s : Str} {pos : Nat} {lit : Str} {pos1 : Nat}
    (h : expect s pos lit = .ok pos1) :
    pos1 = pos + lit.length ∧ lit.length ≤ s.length - pos := by
  simp only [expect] at h
  split at h
  · next heq =>
    cases h
    have h1 : lit.length ≤ (s.drop pos).length := by
      conv_lhs => rw [← heq]
      exact (List.take_sublist _ _).length_le
    have h4 : (s.drop pos).length = s.length - pos := List.length_drop pos s
    omega
  · cases h

/-- Any two sufficient fuel amounts give the dotted loop the same value: the
fuel is an artifact of the embedding, not of the loop. -/
theorem lexLoopF_fuel_irrel (s : Str) :
    ∀ fuel fuel' pos, s.length - pos < fuel → s.length - pos < fuel' →
      lexLoopF s fuel pos = lexLoopF s fuel' pos := by
  intro fuel
  induction fuel with
  | zero => intro fuel' pos h h'; omega
  | succ f ih =>
    intro fuel' pos h h'
    cases fuel' with
    | zero => omega
    | succ f' =>
      simp only [lexLoopF]
      split
      next e heq1 => rfl
      next r tk pos1 heq1 =>
        split
        next pos2 heq2 =>
          obtain ⟨hlt, hle⟩ := take_while_ok heq1
          obtain ⟨he, hle2⟩ := expect_ok heq2
          have he' : pos2 = pos1 + 1 := by simpa using he
          have hle2' : (1 : Nat) ≤ s.length - pos1 := by simpa using hle2
          exact ih f' pos2 (by omega) (by omega)
        next e heq2 => rfl

/-- lexLoop satisfies exactly the recurrence of the Rust loop: consume an
identifier run, then either a dot is consumed and the loop continues, or it
stops after the run. -/
theorem lexLoop_eq (s : Str) (pos : Nat) :
    lexLoop s pos =
      match take_while s pos identDesc isIdentChar with
      | .error e => .error e
      | .ok (_, pos1) =>
        match expect s pos1 ['.'] with
        | .ok pos2 => lexLoop s pos2
        | .error _ => .ok pos1 := by
  unfold lexLoop
  simp only [lexLoopF]
  split
  next e heq1 => rfl
  next r tk pos1 heq1 =>
    split
    next pos2 heq2 =>
      obtain ⟨hlt, hle⟩ := take_while_ok heq1
      obtain ⟨he, hle2⟩ := expect_ok heq2
      have he' : pos2 = pos1 + 1 := by simpa using he
      have hle2' : (1 : Nat) ≤ s.length - pos1 := by simpa using hle2
      exact lexLoopF_fuel_irrel s s.length (s.length + 1) pos2 (by omega) (by omega)
    next e heq2 => rfl

/-- C1: greedy dotted-field lexing succeeds on the three registered names of
the test scheme: lexing x; yields the field registered as x with one character
consumed (remaining input ;), lexing x.y.z0- yields the field x.y.z0 with six
characters consumed (remaining input -), lexing is_TCP yields the field is_TCP
with the whole input consumed (remaining input empty); in each case the
consumed dotted run is looked up verbatim as one candidate via
get_field_index. -/
theorem greedy_dotted_field_lexing (sid : Nat) :
    (Field.lex_with ("x;".toList) 0 sid testScheme = .ok (⟨sid, 0⟩, 1)
      ∧ testScheme.get_field_index sid ("x".toList) = .ok ⟨sid, 0⟩
      ∧ ("x;".toList).drop 1 = ";".toList)
  ∧ (Field.lex_with ("x.y.z0-".toList) 0 sid testScheme = .ok (⟨sid, 1⟩, 6)
      ∧ testScheme.get_field_index sid ("x.y.z0".toList) = .ok ⟨sid, 1⟩
      ∧ ("x.y.z0-".toList).drop 6 = "-".toList)
  ∧ (Field.lex_with ("is_TCP".toList) 0 sid testScheme = .ok (⟨sid, 2⟩, 6)
      ∧ testScheme.get_field_index sid ("is_TCP".toList) = .ok ⟨sid, 2⟩
      ∧ ("is_TCP".toList).drop 6 = "".toList) :=
  ⟨⟨rfl, rfl, rfl⟩, ⟨rfl, rfl, rfl⟩, ⟨rfl, rfl, rfl⟩⟩

/-- C2: field-lexing error spans are exactly the minimal offending substring:
for any scheme, lexing x..y fails with the expected-identifier-character kind
and offending span .y (offset 2, length 2), and lexing x.# fails the same way
with offending span # (offset 2, length 1); against the test scheme, lexing
x.y.z; fails with the unknown-field kind and offending span exactly x.y.z
(offset 0, length 5), not including the trailing semicolon. -/
theorem field_lexing_error_spans (sid : Nat) (S : Scheme) :
    (Field.lex_with ("x..y".toList) 0 sid S
        = .error (.ExpectedName identDesc, 2, 2)
      ∧ (("x..y".toList).drop 2).take 2 = ".y".toList)
  ∧ (Field.lex_with ("x.#".toList) 0 sid S
        = .error (.ExpectedName identDesc, 2, 1)
      ∧ (("x.#".toList).drop 2).take 1 = "#".toList)
  ∧ (Field.lex_with ("x.y.z;".toList) 0 sid testScheme
        = .error (.UnknownField .unknown, 0, 5)
      ∧ (("x.y.z;".toList).drop 0).take 5 = "x.y.z".toList) :=
  ⟨⟨rfl, rfl⟩, ⟨rfl, rfl⟩, ⟨rfl, rfl⟩⟩

/-- C3: registering a name that is already registered is fatal (the panic is
modelled as none) whatever type is supplied, including the type the name was
registered with; the original registry value is untouched by the failed
call. -/
theorem add_field_duplicate_fatal (S : Scheme) (n : Str) (t t0 : Typ) (i : Nat)
    (h : S.fields[i]? = some (n, t0)) :
    S.add_field n t = none := by
  have hmem : (n, t0) ∈ S.fields := by
    obtain ⟨hlt, hget⟩ := List.getElem?_eq_some_iff.mp h
    rw [← hget]
    exact List.getElem_mem hlt
  unfold Scheme.add_field
  rw [if_pos]
  exact List.any_eq_true.mpr ⟨(n, t0), hmem, by simp⟩

/-- Witness for C3 at the test scheme: re-registering x with its original type
Bytes is fatal. -/
theorem add_field_duplicate_fatal_witness :
    testScheme.add_field ("x".toList) Typ.Bytes = none :=
  add_field_duplicate_fatal testScheme ("x".toList) Typ.Bytes Typ.Bytes 0 rfl

/-- C4 counterexample: building a Scheme from a sequence containing the name x
twice is not fatal — it succeeds, silently keeping a single entry whose type
is the one of the later pair. -/
theorem fromIter_duplicate_not_fatal :
    Scheme.fromIter [("x".toList, Typ.Bytes), ("x".toList, Typ.Unsigned)]
      = ⟨[("x".toList, Typ.Unsigned)]⟩ := rfl

/-- C4 amended: bulk construction does not enforce the duplicate rule of
add_field; a duplicated name is silently merged, the later pair's type
overwriting the earlier one at the first occurrence's slot. -/
theorem fromIter_duplicate_overwrites (n : Str) (t1 t2 : Typ) :
    Scheme.fromIter [(n, t1), (n, t2)] = ⟨[(n, t2)]⟩ := by
  have hbeq : (n == n) = true := beq_self_eq_true n
  unfold Scheme.fromIter
  simp only [List.foldl_cons, List.foldl_nil]
  simp only [indexMapInsert, List.any_nil, List.any_cons, hbeq, Bool.true_or,
    Bool.or_false, List.nil_append, if_pos, if_true, if_false, Bool.false_eq_true,
    List.map_cons, List.map_nil]

/-- When the registry keys are unique, findKeyIdx recovers exactly the slot a
stored pair sits at. -/
theorem findKeyIdx_of_getElem? (n : Str) (t : Typ) :
    ∀ (l : List (Str × Typ)) (i : Nat), (l.map Prod.fst).Nodup →
      l[i]? = some (n, t) → findKeyIdx n l = some i := by
  intro l
  induction l with
  | nil => intro i _ h; simp at h
  | cons p rest ih =>
    intro i hnodup h
    have hmap : (p :: rest).map Prod.fst = p.1 :: rest.map Prod.fst := rfl
    rw [hmap, List.nodup_cons] at hnodup
    have hnodup' := hnodup
    cases i with
    | zero =>
      rw [List.getElem?_cons_zero] at h
      have hp : p = (n, t) := by injection h
      subst hp
      rw [findKeyIdx, if_pos (beq_self_eq_true n)]
    | succ j =>
      rw [List.getElem?_cons_succ] at h
      have hmem : (n, t) ∈ rest := by
        obtain ⟨hlt, hget⟩ := List.getElem?_eq_some_iff.mp h
        rw [← hget]
        exact List.getElem_mem hlt
      have hne : ¬(p.1 == n) = true := by
        intro hb
        have hpn : p.1 = n := eq_of_beq hb
        have : n ∈ rest.map Prod.fst := List.mem_map_of_mem Prod.fst hmem
        exact hnodup'.1 (hpn ▸ this)
      rw [findKeyIdx, if_neg hne, ih j hnodup'.2 h]
      rfl

/-- findKeyIdx misses exactly when no stored pair carries the name. -/
theorem findKeyIdx_none (n : Str) :
    ∀ l : List (Str × Typ), (∀ p ∈ l, p.1 ≠ n) → findKeyIdx n l = none := by
  intro l
  induction l with
  | nil => intro _; rfl
  | cons p rest ih =>
    intro h
    have hne : ¬(p.1 == n) = true := by
      intro hb
      exact h p (List.mem_cons_self p rest) (eq_of_beq hb)
    rw [findKeyIdx, if_neg hne, ih (fun q hq => h q (List.mem_cons_of_mem p hq))]
    rfl

/-- A hit of findKeyIdx is a slot inside the registry. -/
theorem findKeyIdx_lt_length (n : Str) :
    ∀ (l : List (Str × Typ)) (i : Nat), findKeyIdx n l = some i → i < l.length := by
  intro l
  induction l with
  | nil => intro i h; cases h
  | cons p rest ih =>
    intro i h
    rw [findKeyIdx] at h
    split at h
    · cases h
      simp
    · cases hr : findKeyIdx n rest with
      | none => rw [hr] at h; cases h
      | some j =>
        rw [hr] at h
        have hj : j + 1 = i := by
          simpa using h
        have := ih j hr
        simp only [List.length_cons]
        omega

/-- C8: registry round-trip — with unique names, a pair stored at slot i is
found by get_field_index, and the returned field's name and type are those that
were registered; a name carried by no pair yields the unknown-field error. -/
theorem registry_roundtrip (env : Nat → Scheme) (sid : Nat) (S : Scheme)
    (n : Str) (t : Typ) (i : Nat) (henv : env sid = S)
    (hnodup : (S.fields.map Prod.fst).Nodup) :
    (S.fields[i]? = some (n, t) →
      S.get_field_index sid n = .ok ⟨sid, i⟩
        ∧ Field.name env ⟨sid, i⟩ = some n
        ∧ Field.get_type env ⟨sid, i⟩ = some t)
  ∧ ((∀ p ∈ S.fields, p.1 ≠ n) →
      S.get_field_index sid n = .error .unknown) := by
  constructor
  · intro h
    have hidx := findKeyIdx_of_getElem? n t S.fields i hnodup h
    refine ⟨?_, ?_, ?_⟩
    · rw [Scheme.get_field_index, hidx]
    · simp [Field.name, henv, h]
    · simp [Field.get_type, henv, h]
  · intro h
    rw [Scheme.get_field_index, findKeyIdx_none n S.fields h]

/-- Witness for C8 at the test scheme: the field x.y.z0 of type Unsigned sits
at slot 1 and round-trips. -/
theorem registry_roundtrip_witness :
    testScheme.get_field_index 0 ("x.y.z0".toList) = .ok ⟨0, 1⟩
      ∧ Field.name (fun _ => testScheme) ⟨0, 1⟩ = some ("x.y.z0".toList)
      ∧ Field.get_type (fun _ => testScheme) ⟨0, 1⟩ = some Typ.Unsigned :=
  (registry_roundtrip (fun _ => testScheme) 0 testScheme ("x.y.z0".toList)
    Typ.Unsigned 1 rfl (by decide)).1 rfl

/-- C9: two fields are equal exactly when they carry the same scheme identity
and the same slot; the hash is taken over the name, so equal fields hash
equally, and two fields of distinct schemes with the same name hash identically
yet compare unequal. -/
theorem field_eq_hash (env : Nat → Scheme) (f g : Field) :
    (fieldEq f g = true ↔ f.sid = g.sid ∧ f.index = g.index)
  ∧ (fieldEq f g = true → Field.hashKey env f = Field.hashKey env g)
  ∧ (∀ fA fB : Field, fA.sid ≠ fB.sid →
      Field.name env fA = Field.name env fB →
      Field.hashKey env fA = Field.hashKey env fB ∧ fieldEq fA fB = false) := by
  refine ⟨?_, ?_, ?_⟩
  · simp [fieldEq]
  · intro h
    have h' : f.sid = g.sid ∧ f.index = g.index := by simpa [fieldEq] using h
    simp [Field.hashKey, Field.name, h'.1, h'.2]
  · intro fA fB hne hname
    have hb : (fA.sid == fB.sid) = false := by
      simpa using hne
    exact ⟨hname, by simp [fieldEq, hb]⟩

/-- Witness for C9: two fields of slot 0 on two distinct scheme identities that
hold structurally identical registries hash identically yet compare
unequal. -/
theorem field_eq_hash_witness :
    Field.hashKey (fun _ => testScheme) ⟨0, 0⟩ = Field.hashKey (fun _ => testScheme) ⟨1, 0⟩
      ∧ fieldEq ⟨0, 0⟩ ⟨1, 0⟩ = false :=
  (field_eq_hash (fun _ => testScheme) ⟨0, 0⟩ ⟨1, 0⟩).2.2 ⟨0, 0⟩ ⟨1, 0⟩
    (by decide) rfl

/-- C10: a field obtained from a successful get_field_index or a successful
field lexing has its slot in bounds of the registry, so the name and type
accessors never hit the none (panic) case of the unwrapped lookup. -/
theorem field_accessors_total (env : Nat → Scheme) (sid : Nat) (S : Scheme)
    (henv : env sid = S) :
    (∀ (n : Str) (f : Field), S.get_field_index sid n = .ok f →
      (Field.name env f).isSome ∧ (Field.get_type env f).isSome)
  ∧ (∀ (s : Str) (pos : Nat) (f : Field) (pos1 : Nat),
      Field.lex_with s pos sid S = .ok (f, pos1) →
      (Field.name env f).isSome ∧ (Field.get_type env f).isSome) := by
  have key : ∀ (n : Str) (f : Field), S.get_field_index sid n = .ok f →
      (Field.name env f).isSome ∧ (Field.get_type env f).isSome := by
    intro n f h
    rw [Scheme.get_field_index] at h
    cases hidx : findKeyIdx n S.fields with
    | none => rw [hidx] at h; cases h
    | some i =>
      rw [hidx] at h
      cases h
      have hlt := findKeyIdx_lt_length n S.fields i hidx
      have hp : S.fields[i]? = some S.fields[i] := List.getElem?_eq_getElem hlt
      constructor
      · simp [Field.name, henv, hp]
      · simp [Field.get_type, henv, hp]
  constructor
  · exact key
  · intro s pos f pos1 h
    rw [Field.lex_with] at h
    split at h
    · cases h
    · split at h
      · rename_i fld hg
        injection h with h2
        injection h2 with hf hp
        subst hf
        exact key _ fld hg
      · cases h

/-- Witness for C10: the field lexed out of x; has total accessors. -/
theorem field_accessors_total_witness :
    (Field.name (fun _ => testScheme) ⟨0, 0⟩).isSome
      ∧ (Field.get_type (fun _ => testScheme) ⟨0, 0⟩).isSome :=
  (field_accessors_total (fun _ => testScheme) 0 testScheme rfl).2
    ("x;".toList) 0 ⟨0, 0⟩ 1 rfl

/-- A list's getLast? hit is a member. -/
theorem getLast?_some_mem {α : Type} {l : List α} {q : α} (h : l.getLast? = some q) :
    q ∈ l := by
  obtain ⟨hne, hq⟩ := List.mem_getLast?_eq_getLast (Option.mem_def.mpr h)
  rw [hq]
  exact List.getLast_mem hne

/-- The number of newline indices is the newline count. -/
theorem newlinePositions_length (l : Str) :
    (newlinePositions l).length = l.count '\n' := by
  induction l with
  | nil => rfl
  | cons c rest ih =>
    rw [newlinePositions, List.length_append, List.length_map, ih, List.count_cons]
    cases hc : (c == '\n') with
    | true => simp; omega
    | false => simp

/-- An index is a newline position exactly when the list holds a newline
there. -/
theorem mem_newlinePositions (l : Str) :
    ∀ i : Nat, i ∈ newlinePositions l ↔ l[i]? = some '\n' := by
  induction l with
  | nil =>
    intro i
    simp [newlinePositions]
  | cons c rest ih =>
    intro i
    cases i with
    | zero =>
      cases hc : (c == '\n') with
      | true =>
        have hcn : c = '\n' := eq_of_beq hc
        simp [newlinePositions, hc, hcn]
      | false =>
        have hcn : ¬c = '\n' := by
          intro hcc
          rw [hcc] at hc
          simp at hc
        simp [newlinePositions, hc, hcn]
    | succ j =>
      cases hc : (c == '\n') with
      | true => simp [newlinePositions, hc, ih j]
      | false => simp [newlinePositions, hc, ih j]

/-- The last newline position bounds every newline position. -/
theorem newlinePositions_getLast_max :
    ∀ (l : Str) (q : Nat), (newlinePositions l).getLast? = some q →
      ∀ i ∈ newlinePositions l, i ≤ q := by
  intro l
  induction l with
  | nil => intro q hq; cases hq
  | cons c rest ih =>
    intro q hq i hi
    rw [newlinePositions] at hq hi
    rw [List.getLast?_append, List.getLast?_map] at hq
    rw [List.mem_append] at hi
    cases hlast : (newlinePositions rest).getLast? with
    | none =>
      have hrestnil : newlinePositions rest = [] := List.getLast?_eq_none_iff.mp hlast
      rw [hlast] at hq
      rw [Option.map_none', Option.none_or] at hq
      rw [hrestnil] at hi
      simp only [List.map_nil, List.mem_nil_iff, or_false] at hi
      cases hc : (c == '\n') with
      | true =>
        rw [hc] at hq hi
        simp at hq hi
        omega
      | false =>
        rw [hc] at hq
        simp at hq
    | some q0 =>
      rw [hlast] at hq
      rw [Option.map_some', Option.or_some] at hq
      have hqq : q = q0 + 1 := by
        injection hq with hq2
        omega
      subst hqq
      cases hi with
      | inl hi0 =>
        cases hc : (c == '\n') with
        | true =>
          rw [hc] at hi0
          simp at hi0
          omega
        | false =>
          rw [hc] at hi0
          simp at hi0
      | inr himap =>
        rw [List.mem_map] at himap
        obtain ⟨i0, hi0, hii⟩ := himap
        have := ih q0 hlast i0 hi0
        omega

/-- The first component of lineNumberAndStart is the newline count. -/
theorem lineNumber_eq_count (l : Str) :
    (lineNumberAndStart l).1 = l.count '\n' := by
  rw [← newlinePositions_length]
  simp only [lineNumberAndStart]
  cases hlast : (newlinePositions l).getLast? with
  | none =>
    have hnil : newlinePositions l = [] := List.getLast?_eq_none_iff.mp hlast
    rw [hnil]
    rfl
  | some q => rfl

/-- The line start stays inside the scanned text. -/
theorem lineStart_le_length (l : Str) : (lineNumberAndStart l).2 ≤ l.length := by
  simp only [lineNumberAndStart]
  cases hlast : (newlinePositions l).getLast? with
  | none => simp
  | some q =>
    have hq : q ∈ newlinePositions l := getLast?_some_mem hlast
    have hnl : l[q]? = some '\n' := (mem_newlinePositions l q).mp hq
    have hlt : q < l.length := (List.getElem?_eq_some_iff.mp hnl).1
    simpa using hlt

/-- The line start is zero, or sits right after a newline of the scanned
text. -/
theorem lineStart_cases (l : Str) :
    (lineNumberAndStart l).2 = 0
      ∨ (1 ≤ (lineNumberAndStart l).2
          ∧ l[(lineNumberAndStart l).2 - 1]? = some '\n') := by
  simp only [lineNumberAndStart]
  cases hlast : (newlinePositions l).getLast? with
  | none => left; rfl
  | some q =>
    right
    have hq : q ∈ newlinePositions l := getLast?_some_mem hlast
    have hnl : l[q]? = some '\n' := (mem_newlinePositions l q).mp hq
    exact ⟨by simp, by simpa using hnl⟩

/-- At or after the line start, the scanned text holds no newline: the line
start is right after the last one. -/
theorem no_newline_from_lineStart (l : Str) (j : Nat)
    (hj : (lineNumberAndStart l).2 ≤ j) : l[j]? ≠ some '\n' := by
  intro hnl
  have hjmem : j ∈ newlinePositions l := (mem_newlinePositions l j).mpr hnl
  simp only [lineNumberAndStart] at hj
  cases hlast : (newlinePositions l).getLast? with
  | none =>
    have hnil : newlinePositions l = [] := List.getLast?_eq_none_iff.mp hlast
    rw [hnil] at hjmem
    cases hjmem
  | some q =>
    rw [hlast] at hj
    simp only at hj
    have := newlinePositions_getLast_max l q hlast j hjmem
    omega

/-- A findChar hit reads back the searched character. -/
theorem findChar_some (c : Char) :
    ∀ (l : Str) (i : Nat), findChar c l = some i → l[i]? = some c := by
  intro l
  induction l with
  | nil => intro i h; cases h
  | cons a rest ih =>
    intro i h
    rw [findChar] at h
    split at h
    · next hac =>
      cases h
      rw [List.getElem?_cons_zero, eq_of_beq hac]
    · cases hr : findChar c rest with
      | none => rw [hr] at h; cases h
      | some j =>
        rw [hr] at h
        have hj : j + 1 = i := by simpa using h
        subst hj
        rw [List.getElem?_cons_succ]
        exact ih j hr

/-- Up to a findChar hit, the list is its run of characters different from
the searched one. -/
theorem findChar_some_take (c : Char) :
    ∀ (l : Str) (i : Nat), findChar c l = some i →
      l.take i = l.takeWhile (fun a => a != c) := by
  intro l
  induction l with
  | nil => intro i h; cases h
  | cons a rest ih =>
    intro i h
    rw [findChar] at h
    split at h
    · next hac =>
      cases h
      have hcc : a = c := eq_of_beq hac
      subst hcc
      rw [List.take_zero, List.takeWhile_cons]
      simp
    · next hac =>
      cases hr : findChar c rest with
      | none => rw [hr] at h; cases h
      | some j =>
        rw [hr] at h
        have hj : j + 1 = i := by simpa using h
        subst hj
        rw [List.take_succ_cons, List.takeWhile_cons, if_pos (by simpa using hac),
          ih j hr]

/-- With no findChar hit, the whole list is such a run. -/
theorem findChar_none_takeWhile (c : Char) :
    ∀ l : Str, findChar c l = none → l = l.takeWhile (fun a => a != c) := by
  intro l
  induction l with
  | nil => intro _; rfl
  | cons a rest ih =>
    intro h
    rw [findChar] at h
    split at h
    · cases h
    · next hac =>
      cases hr : findChar c rest with
      | some j => rw [hr] at h; cases h
      | none =>
        rw [List.takeWhile_cons, if_pos (by simpa using hac), ← ih hr]

/-- The line number stored by ParseError::new is the newline count before the
span. -/
theorem parseErrorNew_line_number (input : Str) (kind : LexErrorKind)
    (spanStart spanLen : Nat) :
    (ParseError.new input kind spanStart spanLen).line_number
      = (input.take spanStart).count '\n' := by
  cases hfc : findChar '\n' (input.drop (lineNumberAndStart (input.take spanStart)).2) with
  | some lineEnd =>
    simp only [ParseError.new, hfc]
    exact lineNumber_eq_count _
  | none =>
    simp only [ParseError.new, hfc]
    exact lineNumber_eq_count _

/-- The column stored by ParseError::new is the span start re-expressed
relative to the line start. -/
theorem parseErrorNew_span_start (input : Str) (kind : LexErrorKind)
    (spanStart spanLen : Nat) :
    (ParseError.new input kind spanStart spanLen).span_start
      = spanStart - (lineNumberAndStart (input.take spanStart)).2 := by
  cases hfc : findChar '\n' (input.drop (lineNumberAndStart (input.take spanStart)).2) with
  | some lineEnd => simp only [ParseError.new, hfc]
  | none => simp only [ParseError.new, hfc]

/-- The line start computed for a span inside the input lies at or before the
span start. -/
theorem lineStart_le_spanStart (input : Str) (spanStart : Nat)
    (h : spanStart ≤ input.length) :
    (lineNumberAndStart (input.take spanStart)).2 ≤ spanStart := by
  have h1 := lineStart_le_length (input.take spanStart)
  rw [List.length_take, inf_eq_left.mpr h] at h1
  exact h1

/-- Between the line start and the span start the original input holds no
newline. -/
theorem no_newline_between (input : Str) (spanStart j : Nat)
    (h1 : (lineNumberAndStart (input.take spanStart)).2 ≤ j) (h2 : j < spanStart) :
    input[j]? ≠ some '\n' := by
  intro hnl
  have h3 := no_newline_from_lineStart (input.take spanStart) j h1
  rw [List.getElem?_take_of_lt h2] at h3
  exact h3 hnl

/-- C5: ParseError position mapping — the stored line number counts the
newlines of the original input before the span start; the line start is zero
or sits right after a newline, with no newline between it and the span start;
the stored column is the span start relative to that line start; and the
stored line is exactly the newline-free run of the original input from the
line start, so it contains no newline character. -/
theorem parse_error_position_mapping (input : Str) (kind : LexErrorKind)
    (spanStart spanLen : Nat) (h : spanStart + spanLen ≤ input.length) :
    ((ParseError.new input kind spanStart spanLen).line_number
        = (input.take spanStart).count '\n')
  ∧ ((ParseError.new input kind spanStart spanLen).span_start
        = spanStart - (lineNumberAndStart (input.take spanStart)).2)
  ∧ ((lineNumberAndStart (input.take spanStart)).2 ≤ spanStart
      ∧ ((lineNumberAndStart (input.take spanStart)).2 = 0
          ∨ input[(lineNumberAndStart (input.take spanStart)).2 - 1]? = some '\n')
      ∧ ∀ j, (lineNumberAndStart (input.take spanStart)).2 ≤ j → j < spanStart →
          input[j]? ≠ some '\n')
  ∧ ((ParseError.new input kind spanStart spanLen).input
        = (input.drop (lineNumberAndStart (input.take spanStart)).2).takeWhile
            (fun c => c != '\n'))
  ∧ (∀ c ∈ (ParseError.new input kind spanStart spanLen).input, c ≠ '\n') := by
  have hss : spanStart ≤ input.length := by omega
  have hls := lineStart_le_spanStart input spanStart hss
  have hinput : (ParseError.new input kind spanStart spanLen).input
      = (input.drop (lineNumberAndStart (input.take spanStart)).2).takeWhile
          (fun c => c != '\n') := by
    cases hfc : findChar '\n' (input.drop (lineNumberAndStart (input.take spanStart)).2) with
    | some lineEnd =>
      simp only [ParseError.new, hfc]
      exact findChar_some_take '\n' _ lineEnd hfc
    | none =>
      simp only [ParseError.new, hfc]
      exact findChar_none_takeWhile '\n' _ hfc
  refine ⟨parseErrorNew_line_number input kind spanStart spanLen,
          parseErrorNew_span_start input kind spanStart spanLen,
          ⟨hls, ?_, fun j hj1 hj2 => no_newline_between input spanStart j hj1 hj2⟩,
          hinput, ?_⟩
  · cases lineStart_cases (input.take spanStart) with
    | inl h0 => exact Or.inl h0
    | inr hr =>
      right
      obtain ⟨h1, hnl⟩ := hr
      rw [List.getElem?_take_of_lt (by omega)] at hnl
      exact hnl
  · intro c hcmem
    rw [hinput] at hcmem
    have hbne := List.mem_takeWhile_imp hcmem
    simpa using hbne

/-- Witness for C5 at a two-line input with the span on the second line. -/
theorem parse_error_position_mapping_witness :
    (ParseError.new ("ab\ncd".toList) LexErrorKind.EOF 4 1).line_number
        = (("ab\ncd".toList).take 4).count '\n'
      ∧ (ParseError.new ("ab\ncd".toList) LexErrorKind.EOF 4 1).span_start
        = 4 - (lineNumberAndStart (("ab\ncd".toList).take 4)).2 :=
  ⟨(parse_error_position_mapping ("ab\ncd".toList) LexErrorKind.EOF 4 1 (by decide)).1,
   (parse_error_position_mapping ("ab\ncd".toList) LexErrorKind.EOF 4 1 (by decide)).2.1⟩

/-- C6: the stored span never extends past the end of the stored line — and
when a newline follows the line start, the stored span length is the original
length clamped to the distance from the column to the line end. -/
theorem parse_error_span_clamped (input : Str) (kind : LexErrorKind)
    (spanStart spanLen : Nat) (h : spanStart + spanLen ≤ input.length) :
    ((ParseError.new input kind spanStart spanLen).span_start
        + (ParseError.new input kind spanStart spanLen).span_len
      ≤ (ParseError.new input kind spanStart spanLen).input.length)
  ∧ (∀ lineEnd,
      findChar '\n' (input.drop (lineNumberAndStart (input.take spanStart)).2)
          = some lineEnd →
      (ParseError.new input kind spanStart spanLen).span_len
        = min spanLen
            (lineEnd - (spanStart - (lineNumberAndStart (input.take spanStart)).2))) := by
  have hss : spanStart ≤ input.length := by omega
  have hls := lineStart_le_spanStart input spanStart hss
  cases hfc : findChar '\n' (input.drop (lineNumberAndStart (input.take spanStart)).2) with
  | some lineEnd =>
    have h1 : (input.drop (lineNumberAndStart (input.take spanStart)).2)[lineEnd]?
        = some '\n' := findChar_some '\n' _ lineEnd hfc
    have h2 : lineEnd < (input.drop (lineNumberAndStart (input.take spanStart)).2).length :=
      (List.getElem?_eq_some_iff.mp h1).1
    have h3 : spanStart - (lineNumberAndStart (input.take spanStart)).2 ≤ lineEnd := by
      by_contra hcon
      push_neg at hcon
      have habs : input[(lineNumberAndStart (input.take spanStart)).2 + lineEnd]?
          = some '\n' := by
        rw [← List.getElem?_drop]
        exact h1
      exact no_newline_between input spanStart _ (by omega) (by omega) habs
    constructor
    · simp only [ParseError.new, hfc]
      rw [List.length_take,
        inf_eq_left.mpr (le_of_lt h2)]
      have hmin :
          min spanLen
              (lineEnd - (spanStart - (lineNumberAndStart (input.take spanStart)).2))
            ≤ lineEnd - (spanStart - (lineNumberAndStart (input.take spanStart)).2) :=
        min_le_right _ _
      omega
    · intro le2 hle2
      injection hle2 with hle2'
      subst hle2'
      simp only [ParseError.new, hfc]
  | none =>
    constructor
    · simp only [ParseError.new, hfc]
      rw [List.length_drop]
      omega
    · intro le2 hle2
      cases hle2

/-- Witness for C6: a span of length three that would run onto the next line
is clamped to its own line. -/
theorem parse_error_span_clamped_witness :
    (ParseError.new ("ab\ncd\nef".toList) LexErrorKind.EOF 4 3).span_start
        + (ParseError.new ("ab\ncd\nef".toList) LexErrorKind.EOF 4 3).span_len
      ≤ (ParseError.new ("ab\ncd\nef".toList) LexErrorKind.EOF 4 3).input.length :=
  (parse_error_span_clamped ("ab\ncd\nef".toList) LexErrorKind.EOF 4 3 (by decide)).1

/-- C7: parse lexes the trimmed text, but a failure is positioned against the
original untrimmed input — the error of parse is the ParseError built at the
absolute offset trimStartLen input + st of the original input, whose line
number counts every newline of the original before that offset (leading
whitespace included) and whose column is that offset re-expressed relative to
its line start in the original. -/
theorem parse_positions_against_original (sid : Nat) (S : Scheme) (input : Str)
    (kind : LexErrorKind) (st len : Nat)
    (h : complete (trim input) (Filter.lex_with (trim input) 0 sid S)
          = .error (kind, st, len)) :
    S.parse sid input
        = .error (ParseError.new input kind (trimStartLen input + st) len)
  ∧ (ParseError.new input kind (trimStartLen input + st) len).line_number
        = (input.take (trimStartLen input + st)).count '\n'
  ∧ (ParseError.new input kind (trimStartLen input + st) len).span_start
        = (trimStartLen input + st)
          - (lineNumberAndStart (input.take (trimStartLen input + st))).2 := by
  refine ⟨?_, parseErrorNew_line_number _ _ _ _, parseErrorNew_span_start _ _ _ _⟩
  unfold Scheme.parse
  rw [h]

/-- Witness for C7: an input with a leading newline and space; the unknown
field x.q of the trimmed text is reported at absolute offset 2 of the
original, on line 1 (0-based), column 1. -/
theorem parse_positions_against_original_witness :
    testScheme.parse 0 ("\n x.q".toList)
        = .error (ParseError.new ("\n x.q".toList) (.UnknownField .unknown)
            (trimStartLen ("\n x.q".toList) + 0) 3)
      ∧ (ParseError.new ("\n x.q".toList) (.UnknownField .unknown)
            (trimStartLen ("\n x.q".toList) + 0) 3).line_number
          = (("\n x.q".toList).take (trimStartLen ("\n x.q".toList) + 0)).count '\n'
      ∧ (ParseError.new ("\n x.q".toList) (.UnknownField .unknown)
            (trimStartLen ("\n x.q".toList) + 0) 3).span_start
          = (trimStartLen ("\n x.q".toList) + 0)
            - (lineNumberAndStart
                (("\n x.q".toList).take (trimStartLen ("\n x.q".toList) + 0))).2 :=
  parse_positions_against_original 0 testScheme ("\n x.q".toList)
    (.UnknownField .unknown) 0 3 rfl

end WFilter
